import Mathlib

/-!
Shallow embedding of key-parser.py (SSH key fingerprint extraction and
correlation).  Strings are modelled as List Char, files as Option of a
list of lines (none = missing file), and the process environment as a
record of optional variable values.  Machine ints are Nat with explicit
reductions mod 2 ^ 32 where the MD5 arithmetic overflows.
-/

namespace KeyParser

/-- Convert a Lean string literal to the List Char representation used
throughout the embedding. -/
def lc (s : String) : List Char := s.toList

/-- Python str whitespace (the ASCII part used by strip and split). -/
def isSpaceChar (c : Char) : Bool :=
  c = ' ' || c = '\t' || c = '\n' || c = '\r' || c = '\x0b' || c = '\x0c'

/-- Python line.strip(): remove leading and trailing whitespace. -/
def stripWS (l : List Char) : List Char :=
  ((l.dropWhile isSpaceChar).reverse.dropWhile isSpaceChar).reverse

/-- Python line.split() with no separator: split on whitespace runs,
discarding empty fields. -/
def splitWS (l : List Char) : List (List Char) :=
  (l.splitOnP isSpaceChar).filter (fun t => ¬ t.isEmpty)

/-- Python line.startswith applied to the one-character literal used by
the source (the comment marker). -/
def startsWithHash : List Char → Bool
  | [] => false
  | c :: _ => c = '#'

/-- Python substring containment (the in operator, and re.search of an
escaped literal pattern). -/
def containsSub (pat : List Char) : List Char → Bool
  | [] => pat.isEmpty
  | c :: rest => pat.isPrefixOf (c :: rest) || containsSub pat rest

/-- Value of one character in the standard base64 alphabet, none for a
character outside the alphabet. -/
def b64CharVal (c : Char) : Option Nat :=
  if 'A' ≤ c ∧ c ≤ 'Z' then some (c.toNat - 65)
  else if 'a' ≤ c ∧ c ≤ 'z' then some (c.toNat - 97 + 26)
  else if '0' ≤ c ∧ c ≤ '9' then some (c.toNat - 48 + 52)
  else if c = '+' then some 62
  else if c = '/' then some 63
  else none

/-- CPython binascii.a2b_base64 in non-strict mode (what
base64.b64decode uses): characters outside the alphabet are skipped, a
pad character ends decoding once the current quad can be completed, and
a dangling quad position at end of input is a decode error.  State:
quad position, pending bits, count of pending pad characters,
accumulated output bytes (reversed). -/
def a2b : List Char → Nat → Nat → Nat → List Nat → Option (List Nat)
  | [], 0, _, _, acc => some acc.reverse
  | [], _ + 1, _, _, _ => none
  | c :: rest, qp, pend, pads, acc =>
    if c = '=' then
      if 2 ≤ qp ∧ 4 ≤ qp + (pads + 1) then some acc.reverse
      else a2b rest qp pend (pads + 1) acc
    else
      match b64CharVal c with
      | none => a2b rest qp pend pads acc
      | some v =>
        match qp with
        | 0 => a2b rest 1 v 0 acc
        | 1 => a2b rest 2 (v % 16) 0 ((pend * 4 + v / 16) :: acc)
        | 2 => a2b rest 3 (v % 4) 0 ((pend * 16 + v / 4) :: acc)
        | _ => a2b rest 0 0 0 ((pend * 64 + v) :: acc)

/-- Python base64.b64decode on text: some bytes on success, none when
the decoder raises binascii.Error. -/
def b64decode (s : List Char) : Option (List Nat) := a2b s 0 0 0 []

/-! MD5 (hashlib.md5), operating on byte lists, words as Nat mod 2^32. -/

/-- Per-round added constants of MD5 (RFC 1321 T table). -/
def md5K : List Nat :=
  [0xd76aa478, 0xe8c7b756, 0x242070db, 0xc1bdceee,
   0xf57c0faf, 0x4787c62a, 0xa8304613, 0xfd469501,
   0x698098d8, 0x8b44f7af, 0xffff5bb1, 0x895cd7be,
   0x6b901122, 0xfd987193, 0xa679438e, 0x49b40821,
   0xf61e2562, 0xc040b340, 0x265e5a51, 0xe9b6c7aa,
   0xd62f105d, 0x02441453, 0xd8a1e681, 0xe7d3fbc8,
   0x21e1cde6, 0xc33707d6, 0xf4d50d87, 0x455a14ed,
   0xa9e3e905, 0xfcefa3f8, 0x676f02d9, 0x8d2a4c8a,
   0xfffa3942, 0x8771f681, 0x6d9d6122, 0xfde5380c,
   0xa4beea44, 0x4bdecfa9, 0xf6bb4b60, 0xbebfbc70,
   0x289b7ec6, 0xeaa127fa, 0xd4ef3085, 0x04881d05,
   0xd9d4d039, 0xe6db99e5, 0x1fa27cf8, 0xc4ac5665,
   0xf4292244, 0x432aff97, 0xab9423a7, 0xfc93a039,
   0x655b59c3, 0x8f0ccc92, 0xffeff47d, 0x85845dd1,
   0x6fa87e4f, 0xfe2ce6e0, 0xa3014314, 0x4e0811a1,
   0xf7537e82, 0xbd3af235, 0x2ad7d2bb, 0xeb86d391]

/-- Per-round left-rotate amounts of MD5. -/
def md5S : List Nat :=
  [7, 12, 17, 22, 7, 12, 17, 22, 7, 12, 17, 22, 7, 12, 17, 22,
   5, 9, 14, 20, 5, 9, 14, 20, 5, 9, 14, 20, 5, 9, 14, 20,
   4, 11, 16, 23, 4, 11, 16, 23, 4, 11, 16, 23, 4, 11, 16, 23,
   6, 10, 15, 21, 6, 10, 15, 21, 6, 10, 15, 21, 6, 10, 15, 21]

/-- 32-bit left rotation on a Nat below 2^32. -/
def rotl32 (x n : Nat) : Nat :=
  ((x <<< n) % 4294967296) + (x >>> (32 - n))

/-- Round function of MD5 (round selected by the step index). -/
def md5F (i b c d : Nat) : Nat :=
  if i < 16 then (b &&& c) ||| ((4294967295 - b) &&& d)
  else if i < 32 then (d &&& b) ||| ((4294967295 - d) &&& c)
  else if i < 48 then b ^^^ c ^^^ d
  else c ^^^ (b ||| (4294967295 - d))

/-- Message-word index schedule of MD5. -/
def md5G (i : Nat) : Nat :=
  if i < 16 then i
  else if i < 32 then (5 * i + 1) % 16
  else if i < 48 then (3 * i + 5) % 16
  else (7 * i) % 16

/-- One MD5 step: state (a, b, c, d), message words m, step index i. -/
def md5Step (m : List Nat) (st : Nat × Nat × Nat × Nat) (i : Nat) :
    Nat × Nat × Nat × Nat :=
  let a := st.1; let b := st.2.1; let c := st.2.2.1; let d := st.2.2.2
  let f := (md5F i b c d + a + md5K.getD i 0 + m.getD (md5G i) 0) % 4294967296
  (d, (b + rotl32 f (md5S.getD i 0)) % 4294967296, b, c)

/-- Process one 64-byte block (given as 16 little-endian words). -/
def md5Block (st : Nat × Nat × Nat × Nat) (m : List Nat) :
    Nat × Nat × Nat × Nat :=
  let r := (List.range 64).foldl (md5Step m) st
  ((st.1 + r.1) % 4294967296, (st.2.1 + r.2.1) % 4294967296,
   (st.2.2.1 + r.2.2.1) % 4294967296, (st.2.2.2 + r.2.2.2) % 4294967296)

/-- Little-endian bytes of a 32-bit word. -/
def wordLE (w : Nat) : List Nat :=
  [w % 256, w / 256 % 256, w / 65536 % 256, w / 16777216 % 256]

/-- MD5 padding: 0x80, zeros to 56 mod 64, then the 64-bit little-endian
bit length. -/
def md5Pad (msg : List Nat) : List Nat :=
  msg ++ 0x80 :: List.replicate ((119 - msg.length % 64) % 64) 0
      ++ (List.range 8).map (fun i => 8 * msg.length / 256 ^ i % 256)

/-- Split the padded message into 16-word blocks (little-endian). -/
def md5Words (p : List Nat) (b : Nat) : List Nat :=
  (List.range 16).map (fun i =>
    p.getD (64 * b + 4 * i) 0 + 256 * p.getD (64 * b + 4 * i + 1) 0
      + 65536 * p.getD (64 * b + 4 * i + 2) 0
      + 16777216 * p.getD (64 * b + 4 * i + 3) 0)

/-- Serialize the final MD5 state as 16 digest bytes. -/
def md5Final (st : Nat × Nat × Nat × Nat) : List Nat :=
  wordLE st.1 ++ wordLE st.2.1 ++ wordLE st.2.2.1 ++ wordLE st.2.2.2

/-- hashlib.md5(bytes).digest(): the 16 digest bytes. -/
def md5Bytes (msg : List Nat) : List Nat :=
  let p := md5Pad msg
  md5Final ((List.range (p.length / 64)).foldl
    (fun st b => md5Block st (md5Words p b))
    (0x67452301, 0xefcdab89, 0x98badcfe, 0x10325476))

/-- One lowercase hexadecimal digit: 0-9 for values below ten, a-f
above. -/
def hexChar (n : Nat) : Char :=
  if n < 10 then Char.ofNat (48 + n) else Char.ofNat (87 + n)

/-- The sixteen lowercase hexadecimal digit characters. -/
def hexChars : List Char := (List.range 16).map hexChar

/-- Two lowercase hex characters of one byte. -/
def byteHex (b : Nat) : List Char := [hexChar (b / 16), hexChar (b % 16)]

/-- hashlib hexdigest: digest bytes rendered as lowercase hex text. -/
def hexdigest (bs : List Nat) : List Char := bs.flatMap byteHex

/-- The two-character slices h[i : i+2] for i = 0, 2, 4, ... as in the
fingerprint formatting comprehension. -/
def pairsOf : List Char → List (List Char)
  | [] => []
  | [a] => [[a]]
  | a :: b :: rest => [a, b] :: pairsOf rest

/-- ':'.join of the slices. -/
def joinColon : List (List Char) → List Char
  | [] => []
  | [x] => x
  | x :: y :: rest => x ++ ':' :: joinColon (y :: rest)

/-- The sentinel string used throughout the source. -/
def unknownS : List Char := ['u', 'n', 'k', 'n', 'o', 'w', 'n']

/-- SSHKeyParser._generate_fingerprint: base64-decode the key data; on
failure return the sentinel, otherwise the colon-grouped lowercase-hex
MD5 of the decoded bytes.  The key-type argument is accepted and
ignored, as in the source. -/
def generate_fingerprint (key_type key_data : List Char) : List Char :=
  match b64decode key_data with
  | none => unknownS
  | some bs => joinColon (pairsOf (hexdigest (md5Bytes bs)))

/-- One parsed authorized_keys entry (the dict built by
_parse_authorized_key_line; line_number is added later by the loader,
hence optional). -/
structure KeyEntry where
  type : List Char
  data : List Char
  fingerprint : List Char
  comment : List Char
  options : List (List Char × List Char)
  full_line : List Char
  line_number : Option Nat
deriving DecidableEq

/-- The in-memory fingerprint index (a Python dict in insertion
order). -/
abbrev KeyDict := List (List Char × KeyEntry)

/-- Python dict assignment d[k] = v: replace in place when the key is
present, else append (preserving insertion order as CPython does). -/
def dictInsert {α : Type} (k : List Char) (v : α) (m : List (List Char × α)) :
    List (List Char × α) :=
  if m.any (fun p => p.1 = k) then
    m.map (fun p => if p.1 = k then (k, v) else p)
  else m ++ [(k, v)]

/-- Python dict.get. -/
def dictGet {α : Type} (k : List Char) (m : List (List Char × α)) : Option α :=
  (m.find? (fun p => p.1 = k)).map (fun p => p.2)

/-- part.split('=', 1): text before the first '=' and text after it. -/
def splitFirstEq (t : List Char) : List Char × List Char :=
  (t.takeWhile (fun c => c ≠ '='), (t.dropWhile (fun c => c ≠ '=')).drop 1)

/-- The options dict built from the token slice parts[2 : -1]: every
token containing '=' is split on the first '=' and recorded. -/
def mkOptions (ts : List (List Char)) : List (List Char × List Char) :=
  ts.foldl
    (fun m t =>
      if t.contains '=' then dictInsert (splitFirstEq t).1 (splitFirstEq t).2 m
      else m)
    []

/-- SSHKeyParser._parse_authorized_key_line: split on whitespace,
require at least two tokens, take type, data, optional comment, the
generated fingerprint, and options from the tokens strictly between
index 2 and the last token (only scanned when more than three tokens
exist). -/
def parse_authorized_key_line (line : List Char) : Option KeyEntry :=
  if (splitWS line).length < 2 then none
  else
    some
      { type := (splitWS line).getD 0 []
        data := (splitWS line).getD 1 []
        fingerprint := generate_fingerprint ((splitWS line).getD 0 []) ((splitWS line).getD 1 [])
        comment := if 2 < (splitWS line).length then (splitWS line).getD 2 [] else []
        options :=
          if 3 < (splitWS line).length then mkOptions (((splitWS line).drop 2).dropLast) else []
        full_line := line
        line_number := none }

/-- The loader's per-line filter: after stripping, skip blank lines and
lines starting with the comment marker. -/
def keepLine (l : List Char) : Bool :=
  ¬ (stripWS l).isEmpty && ¬ startsWithHash (stripWS l)

/-- The loop body of SSHKeyParser._load_authorized_keys over the
enumerated lines, threading the fingerprint index. -/
def load_lines (cache : KeyDict) (n : Nat) : List (List Char) → KeyDict
  | [] => cache
  | l :: rest =>
    if keepLine l then
      match parse_authorized_key_line (stripWS l) with
      | some e =>
        load_lines (dictInsert e.fingerprint { e with line_number := some n } cache) (n + 1) rest
      | none => load_lines cache (n + 1) rest
    else load_lines cache (n + 1) rest

/-- SSHKeyParser._load_authorized_keys: a missing file loads an empty
index, otherwise the lines are folded into the index with 1-based line
numbers. -/
def load_authorized_keys : Option (List (List Char)) → KeyDict
  | none => []
  | some ls => load_lines [] 1 ls

/-- SSHKeyParser.find_key_by_fingerprint: plain index lookup. -/
def find_key_by_fingerprint (cache : KeyDict) (fp : List Char) : Option KeyEntry :=
  dictGet fp cache

/-- The scanning loop of SSHKeyParser._find_key_by_data: first
non-comment line whose second token equals the key data is re-parsed
and returned (even when re-parsing fails).  Note the comment check here
is on the raw line, not the stripped one. -/
def find_key_by_data_lines (kd : List Char) : List (List Char) → Option KeyEntry
  | [] => none
  | l :: rest =>
    if ¬ (stripWS l).isEmpty ∧ ¬ startsWithHash l then
      if 2 ≤ (splitWS (stripWS l)).length ∧ (splitWS (stripWS l)).getD 1 [] = kd then
        parse_authorized_key_line (stripWS l)
      else find_key_by_data_lines kd rest
    else find_key_by_data_lines kd rest

/-- SSHKeyParser._find_key_by_data: a missing registry file yields no
result, otherwise the file is re-scanned top to bottom. -/
def find_key_by_data (file : Option (List (List Char))) (kd : List Char) : Option KeyEntry :=
  match file with
  | none => none
  | some ls => find_key_by_data_lines kd ls

/-! Auth log scanning. -/

/-- One evidence record extracted from a log line (the dict returned by
_parse_ssh_connection_line). -/
structure ConnectionRecord where
  fingerprint : List Char
  key_type : List Char
  auth_method : List Char
  key_data : List Char
deriving DecidableEq

/-- Characters of the regex class used for logged SHA256 fingerprints
and for raw key data. -/
def isB64Char (c : Char) : Bool :=
  ('A' ≤ c && c ≤ 'Z') || ('a' ≤ c && c ≤ 'z') || ('0' ≤ c && c ≤ '9')
    || c = '+' || c = '/' || c = '='

/-- Characters of the regex class used for hex-colon fingerprints. -/
def isHexColonChar (c : Char) : Bool :=
  ('a' ≤ c && c ≤ 'f') || ('0' ≤ c && c ≤ '9') || c = ':'

/-- re.search of a pattern of the form literal-then-character-class-run
with a minimum run length (the shape of every fingerprint and key-data
pattern in the source): leftmost position where the literal matches and
is followed by a long enough class run; the greedy group is the maximal
run there. -/
def searchLitRun (lit : List Char) (cls : Char → Bool) (minLen : Nat) :
    List Char → Option (List Char)
  | [] => none
  | c :: rest =>
    if lit.isPrefixOf (c :: rest) then
      let run := ((c :: rest).drop lit.length).takeWhile cls
      if minLen ≤ run.length ∧ 1 ≤ run.length then some run
      else searchLitRun lit cls minLen rest
    else searchLitRun lit cls minLen rest

/-- The ordered fingerprint patterns of _parse_ssh_connection_line;
first match wins. -/
def extract_fingerprint (line : List Char) : Option (List Char) :=
  (searchLitRun (lc "RSA SHA256:") isB64Char 1 line).orElse fun _ =>
  (searchLitRun (lc "ED25519 SHA256:") isB64Char 1 line).orElse fun _ =>
  (searchLitRun (lc "ECDSA SHA256:") isB64Char 1 line).orElse fun _ =>
  (searchLitRun (lc "DSA SHA256:") isB64Char 1 line).orElse fun _ =>
  (searchLitRun (lc "key fingerprint ") isHexColonChar 1 line).orElse fun _ =>
  searchLitRun (lc "fingerprint ") isHexColonChar 1 line

/-- The ordered key-data patterns of _parse_ssh_connection_line: a run
of at least 50 base64 characters after one of the introducing words. -/
def extract_key_data (line : List Char) : Option (List Char) :=
  (searchLitRun (lc "key ") isB64Char 50 line).orElse fun _ =>
  (searchLitRun (lc "RSA ") isB64Char 50 line).orElse fun _ =>
  (searchLitRun (lc "ED25519 ") isB64Char 50 line).orElse fun _ =>
  (searchLitRun (lc "ECDSA ") isB64Char 50 line).orElse fun _ =>
  searchLitRun (lc "DSA ") isB64Char 50 line

/-- re.search of the alternation RSA, ECDSA, ED25519, DSA: leftmost
occurrence, alternatives tried in written order at each position. -/
def extract_key_type : List Char → Option (List Char)
  | [] => none
  | c :: rest =>
    if (lc "RSA").isPrefixOf (c :: rest) then some (lc "RSA")
    else if (lc "ECDSA").isPrefixOf (c :: rest) then some (lc "ECDSA")
    else if (lc "ED25519").isPrefixOf (c :: rest) then some (lc "ED25519")
    else if (lc "DSA").isPrefixOf (c :: rest) then some (lc "DSA")
    else extract_key_type rest

/-- AuthLogParser._parse_ssh_connection_line: each field falls back to
the sentinel when its extraction finds nothing; the auth method is
decided by substring checks in the fixed priority order. -/
def parse_ssh_connection_line (line : List Char) : ConnectionRecord :=
  { fingerprint := (extract_fingerprint line).getD unknownS
    key_type := (extract_key_type line).getD unknownS
    key_data := (extract_key_data line).getD unknownS
    auth_method :=
      if containsSub (lc "publickey") line then lc "publickey"
      else if containsSub (lc "password") line then lc "password"
      else if containsSub (lc "keyboard-interactive") line then lc "keyboard-interactive"
      else unknownS }

/-- The literal substring matched by each escaped pattern of
_is_ssh_connection_line. -/
def connPattern (method user ip : List Char) : List Char :=
  lc "Accepted " ++ method ++ lc " for " ++ user ++ lc " from " ++ ip

/-- AuthLogParser._is_ssh_connection_line: any of the three accepted
connection patterns occurs in the line. -/
def is_ssh_connection_line (line ip user : List Char) : Bool :=
  containsSub (connPattern (lc "publickey") user ip) line
    || containsSub (connPattern (lc "password") user ip) line
    || containsSub (connPattern (lc "keyboard-interactive") user ip) line

/-- The loose IP-only test applied by the fallback scans: the line must
contain the IP, the word Accepted and the word sshd. -/
def looseMatch (ip line : List Char) : Bool :=
  containsSub ip line && containsSub (lc "Accepted") line && containsSub (lc "sshd") line

/-- The window expression lines[-max_lines:] if len(lines) > max_lines
else lines.  A Python slice [-0:] is the whole list, which the model
reproduces. -/
def recentWindow (maxLines : Nat) (lines : List (List Char)) : List (List Char) :=
  if maxLines < lines.length then
    if maxLines = 0 then lines else lines.drop (lines.length - maxLines)
  else lines

/-- AuthLogParser.find_recent_ssh_connection: a missing log yields no
evidence; otherwise scan the window newest-first for an exact match,
then for a loose IP match, and parse the first hit. -/
def find_recent_ssh_connection (log : Option (List (List Char))) (ip user : List Char)
    (maxLines : Nat) : Option ConnectionRecord :=
  match log with
  | none => none
  | some lines =>
    match (recentWindow maxLines lines).reverse.find? (fun l => is_ssh_connection_line l ip user) with
    | some l => some (parse_ssh_connection_line l)
    | none =>
      match (recentWindow maxLines lines).reverse.find? (fun l => looseMatch ip l) with
      | some l => some (parse_ssh_connection_line l)
      | none => none

/-! The correlator. -/

/-- The two environment variables the key lookup consults (None when
unset); other environment access belongs to the out-of-scope detector. -/
structure SSHEnv where
  ssh_key_fingerprint : Option (List Char)
  ssh_key_comment : Option (List Char)

/-- Python truthiness of os.environ.get: present and non-empty. -/
def truthy : Option (List Char) → Bool
  | none => false
  | some s => ¬ s.isEmpty

/-- SSHKeyParser._find_key_from_ssh_environment: a truthy
SSH_KEY_FINGERPRINT is looked up directly and its result returned as
is; only otherwise is a truthy SSH_KEY_COMMENT compared against every
cached entry in insertion order; with neither, no result. -/
def find_key_from_ssh_environment (cache : KeyDict) (env : SSHEnv) : Option KeyEntry :=
  if truthy env.ssh_key_fingerprint then
    find_key_by_fingerprint cache (env.ssh_key_fingerprint.getD [])
  else if truthy env.ssh_key_comment then
    match (cache.map (fun p => p.2)).find?
        (fun e => e.comment = env.ssh_key_comment.getD []) with
    | some e => some e
    | none => none
  else none

/-- The inner loop of Method 2 of find_key_by_ip_and_user, given the
window already reversed: on a loose match whose parsed key data is not
the sentinel, look it up; return on a hit, keep scanning otherwise. -/
def method2_scan (ip : List Char) (keys : Option (List (List Char))) :
    List (List Char) → Option KeyEntry
  | [] => none
  | l :: rest =>
    if looseMatch ip l then
      if (parse_ssh_connection_line l).key_data ≠ unknownS then
        match find_key_by_data keys (parse_ssh_connection_line l).key_data with
        | some k => some k
        | none => method2_scan ip keys rest
      else method2_scan ip keys rest
    else method2_scan ip keys rest

/-- The files and environment a run of the program sees. -/
structure World where
  authorized_keys : Option (List (List Char))
  auth_log : Option (List (List Char))
  env : SSHEnv

/-- SSHKeyParser.find_key_by_ip_and_user: the ordered fallback chain.
Step 1 looks the logged fingerprint up in the index, step 2 looks the
logged key data up in the registry file, step 3 rescans the last 100
log lines for a loose IP match resolvable by key data, step 4 falls
back to the environment hints. -/
def find_key_by_ip_and_user (w : World) (ip user : List Char) : Option KeyEntry :=
  let cache := load_authorized_keys w.authorized_keys
  let ci := find_recent_ssh_connection w.auth_log ip user 1000
  let step1 :=
    match ci with
    | some c =>
      if c.fingerprint ≠ unknownS then find_key_by_fingerprint cache c.fingerprint else none
    | none => none
  match step1 with
  | some k => some k
  | none =>
    let step2 :=
      match ci with
      | some c => if c.key_data ≠ unknownS then find_key_by_data w.authorized_keys c.key_data else none
      | none => none
    match step2 with
    | some k => some k
    | none =>
      let step3 :=
        match w.auth_log with
        | none => none
        | some lines => method2_scan ip w.authorized_keys (recentWindow 100 lines).reverse
      match step3 with
      | some k => some k
      | none => find_key_from_ssh_environment cache w.env

/-- Statement-side notion used by the log-window claim: the suffix of
the last k lines of a file (empty when k = 0). -/
def lastLines (k : Nat) (ls : List (List Char)) : List (List Char) :=
  ls.drop (ls.length - k)

/-- Statement-side predicate used by the sentinel-index claim: a
registry line that survives the loader's skip filter, parses (at least
two tokens), and whose key-data token fails base64 decoding. -/
def undecodableLine (l : List Char) : Bool :=
  keepLine l && decide (2 ≤ (splitWS (stripWS l)).length)
    && decide (b64decode ((splitWS (stripWS l)).getD 1 []) = none)

/-! Shape lemmas about the fingerprint pipeline. -/

theorem md5Final_length (st : Nat × Nat × Nat × Nat) : (md5Final st).length = 16 := by
  simp [md5Final, wordLE]

theorem md5Final_lt (st : Nat × Nat × Nat × Nat) : ∀ b ∈ md5Final st, b < 256 := by
  intro b hb
  simp [md5Final, wordLE] at hb
  omega

theorem md5Bytes_length (m : List Nat) : (md5Bytes m).length = 16 := by
  simp only [md5Bytes]
  exact md5Final_length _

theorem md5Bytes_lt (m : List Nat) : ∀ b ∈ md5Bytes m, b < 256 := by
  simp only [md5Bytes]
  exact md5Final_lt _

theorem hexdigest_length (bs : List Nat) : (hexdigest bs).length = 2 * bs.length := by
  induction bs with
  | nil => rfl
  | cons b t ih =>
    simp only [hexdigest, List.flatMap_cons, List.length_append] at ih ⊢
    have hb : (byteHex b).length = 2 := rfl
    rw [hb, ih]
    simp
    omega

theorem hexChar_mem (i : Nat) (h : i < 16) : hexChar i ∈ hexChars := by
  unfold hexChars
  exact List.mem_map_of_mem _ (List.mem_range.mpr h)

theorem hexdigest_mem (bs : List Nat) (hb : ∀ b ∈ bs, b < 256) :
    ∀ c ∈ hexdigest bs, c ∈ hexChars := by
  intro c hc
  simp only [hexdigest, List.mem_flatMap] at hc
  obtain ⟨b, hbs, hcb⟩ := hc
  have h256 := hb b hbs
  simp only [byteHex, List.mem_cons, List.not_mem_nil, or_false] at hcb
  rcases hcb with rfl | rfl
  · exact hexChar_mem _ (by omega)
  · exact hexChar_mem _ (by omega)

theorem pairsOf_spec : ∀ (n : Nat) (l : List Char), l.length = 2 * n →
    (pairsOf l).length = n ∧ ∀ p ∈ pairsOf l, p.length = 2 ∧ ∀ c ∈ p, c ∈ l := by
  intro n
  induction n with
  | zero =>
    intro l hl
    have : l = [] := List.length_eq_zero.mp (by omega)
    subst this
    simp [pairsOf]
  | succ k ih =>
    intro l hl
    cases l with
    | nil => simp at hl
    | cons a t =>
      cases t with
      | nil => simp at hl; omega
      | cons b t2 =>
        have ht : t2.length = 2 * k := by simp at hl; omega
        obtain ⟨ih1, ih2⟩ := ih t2 ht
        refine ⟨by simp [pairsOf, ih1], ?_⟩
        intro p hp
        simp only [pairsOf, List.mem_cons] at hp
        rcases hp with rfl | hp
        · exact ⟨rfl, by intro c hc; simp at hc; rcases hc with rfl | rfl <;> simp⟩
        · obtain ⟨hl2, hmem⟩ := ih2 p hp
          exact ⟨hl2, fun c hc => by simp [hmem c hc]⟩

theorem joinColon_length : ∀ ps : List (List Char), (∀ p ∈ ps, p.length = 2) →
    ps ≠ [] → (joinColon ps).length = 3 * ps.length - 1 := by
  intro ps
  induction ps with
  | nil => intro _ h; exact absurd rfl h
  | cons x rest ih =>
    intro hall _
    cases rest with
    | nil => simp [joinColon, hall x (by simp)]
    | cons y r2 =>
      have hr := ih (fun p hp => hall p (by simp [List.mem_cons] at hp ⊢; tauto))
        (by simp)
      have hx := hall x (by simp)
      simp only [joinColon, List.length_append, List.length_cons] at hr ⊢
      omega

theorem fingerprint_ne_unknown (bs : List Nat) :
    joinColon (pairsOf (hexdigest (md5Bytes bs))) ≠ unknownS := by
  intro h
  have hlen : (hexdigest (md5Bytes bs)).length = 2 * 16 := by
    rw [hexdigest_length, md5Bytes_length]
  obtain ⟨h1, h2⟩ := pairsOf_spec 16 _ hlen
  have hne : pairsOf (hexdigest (md5Bytes bs)) ≠ [] := by
    intro hnil
    rw [hnil] at h1
    simp at h1
  have h3 := joinColon_length _ (fun p hp => (h2 p hp).1) hne
  rw [h1, h] at h3
  exact absurd h3 (by decide)

theorem generate_fingerprint_type_irrel (t t' d : List Char) :
    generate_fingerprint t d = generate_fingerprint t' d := rfl

theorem generate_fingerprint_of_none (t d : List Char) (h : b64decode d = none) :
    generate_fingerprint t d = unknownS := by
  simp [generate_fingerprint, h]

theorem generate_fingerprint_of_some (t d : List Char) (bs : List Nat)
    (h : b64decode d = some bs) :
    generate_fingerprint t d = joinColon (pairsOf (hexdigest (md5Bytes bs))) := by
  simp [generate_fingerprint, h]

theorem generate_fingerprint_ne_unknown (t d : List Char) (bs : List Nat)
    (h : b64decode d = some bs) : generate_fingerprint t d ≠ unknownS := by
  rw [generate_fingerprint_of_some t d bs h]
  exact fingerprint_ne_unknown bs

/-! Association-list lemmas matching Python dict behaviour. -/

theorem find?_map_keep {α : Type} (k : List Char) (v : α) :
    ∀ m : List (List Char × α), m.any (fun p => p.1 = k) = true →
      (m.map (fun p => if p.1 = k then (k, v) else p)).find? (fun p => p.1 = k)
        = some (k, v) := by
  intro m
  induction m with
  | nil => simp
  | cons hd tl ih =>
    intro hany
    by_cases h : hd.1 = k
    · rw [List.map_cons, if_pos h, List.find?_cons_of_pos _ (by simp)]
    · have htl : tl.any (fun p => p.1 = k) = true := by
        simp only [List.any_cons, Bool.or_eq_true, decide_eq_true_eq] at hany
        rcases hany with h' | h'
        · exact absurd h' h
        · exact h'
      rw [List.map_cons, if_neg h, List.find?_cons_of_neg _ (by simp [h])]
      exact ih htl

theorem find?_map_irrel {α : Type} (k k' : List Char) (v : α) (hkk : k' ≠ k) :
    ∀ m : List (List Char × α),
      (m.map (fun p => if p.1 = k' then (k', v) else p)).find? (fun p => p.1 = k)
        = m.find? (fun p => p.1 = k) := by
  intro m
  induction m with
  | nil => rfl
  | cons hd tl ih =>
    by_cases h : hd.1 = k'
    · have h2 : ¬ hd.1 = k := by rw [h]; exact hkk
      rw [List.map_cons, if_pos h, List.find?_cons_of_neg _ (by simp [hkk]),
        List.find?_cons_of_neg _ (by simp [h2])]
      exact ih
    · by_cases h2 : hd.1 = k
      · rw [List.map_cons, if_neg h, List.find?_cons_of_pos _ (by simp [h2]),
          List.find?_cons_of_pos _ (by simp [h2])]
      · rw [List.map_cons, if_neg h, List.find?_cons_of_neg _ (by simp [h2]),
          List.find?_cons_of_neg _ (by simp [h2])]
        exact ih

theorem find?_none_of_any_false {α : Type} (k : List Char)
    (m : List (List Char × α)) (h : m.any (fun p => p.1 = k) = false) :
    m.find? (fun p => p.1 = k) = none := by
  rw [List.find?_eq_none]
  intro p hp
  simp only [List.any_eq_false, decide_eq_true_eq] at h
  simpa using h p hp

theorem dictGet_dictInsert_self {α : Type} (k : List Char) (v : α)
    (m : List (List Char × α)) : dictGet k (dictInsert k v m) = some v := by
  unfold dictGet dictInsert
  by_cases hany : m.any (fun p => p.1 = k) = true
  · rw [if_pos hany, find?_map_keep k v m hany]
    rfl
  · rw [if_neg hany, List.find?_append,
      find?_none_of_any_false k m (Bool.eq_false_iff.mpr hany)]
    simp [List.find?]

theorem dictGet_dictInsert_ne {α : Type} (k k' : List Char) (v : α)
    (m : List (List Char × α)) (h : k' ≠ k) :
    dictGet k (dictInsert k' v m) = dictGet k m := by
  unfold dictGet dictInsert
  by_cases hany : m.any (fun p => p.1 = k') = true
  · rw [if_pos hany, find?_map_irrel k k' v h m]
  · rw [if_neg hany, List.find?_append]
    have : ([(k', v)].find? (fun p => p.1 = k)) = none := by simp [List.find?, h]
    rw [this]
    cases m.find? (fun p => p.1 = k) <;> rfl

/-! Interaction of the comment marker with stripping. -/

theorem strip_hash (t : List Char) : ∃ ys, stripWS ('#' :: t) = '#' :: ys := by
  have h1 : ('#' :: t).dropWhile isSpaceChar = '#' :: t := by
    rw [List.dropWhile_cons]
    simp [isSpaceChar]
  unfold stripWS
  rw [h1, List.reverse_cons]
  generalize t.reverse = xs
  induction xs with
  | nil => exact ⟨[], by simp [List.dropWhile, isSpaceChar]⟩
  | cons x xs ih =>
    rw [List.cons_append, List.dropWhile_cons]
    by_cases hx : isSpaceChar x = true
    · simpa [hx] using ih
    · refine ⟨xs.reverse ++ [x], ?_⟩
      simp [hx]

theorem keepLine_not_hash (l : List Char) (h : keepLine l = true) :
    startsWithHash l = false := by
  cases l with
  | nil => rfl
  | cons c t =>
    by_cases hc : c = '#'
    · subst hc
      obtain ⟨ys, hys⟩ := strip_hash t
      unfold keepLine at h
      rw [hys] at h
      simp [startsWithHash] at h
    · simp [startsWithHash, hc]

/-! Length bound delivered by the pattern searches. -/

theorem searchLitRun_min (lit : List Char) (cls : Char → Bool) (m : Nat) :
    ∀ l r, searchLitRun lit cls m l = some r → m ≤ r.length := by
  intro l
  induction l with
  | nil => intro r h; simp [searchLitRun] at h
  | cons c rest ih =>
    intro r h
    simp only [searchLitRun] at h
    by_cases hp : lit.isPrefixOf (c :: rest) = true
    · rw [if_pos hp] at h
      rcases Decidable.em
          (m ≤ (((c :: rest).drop lit.length).takeWhile cls).length
            ∧ 1 ≤ (((c :: rest).drop lit.length).takeWhile cls).length) with hc | hc
      · rw [if_pos hc] at h
        injection h with h'
        rw [← h']
        exact hc.1
      · rw [if_neg hc] at h
        exact ih r h
    · rw [if_neg hp] at h
      exact ih r h

theorem extract_key_data_min (l r : List Char) (h : extract_key_data l = some r) :
    50 ≤ r.length := by
  unfold extract_key_data at h
  cases h1 : searchLitRun (lc "key ") isB64Char 50 l with
  | some r1 => rw [h1] at h; simp at h; subst h; exact searchLitRun_min _ _ _ _ _ h1
  | none =>
    rw [h1] at h; simp only [Option.orElse] at h
    cases h2 : searchLitRun (lc "RSA ") isB64Char 50 l with
    | some r2 => rw [h2] at h; simp at h; subst h; exact searchLitRun_min _ _ _ _ _ h2
    | none =>
      rw [h2] at h; simp only [Option.orElse] at h
      cases h3 : searchLitRun (lc "ED25519 ") isB64Char 50 l with
      | some r3 => rw [h3] at h; simp at h; subst h; exact searchLitRun_min _ _ _ _ _ h3
      | none =>
        rw [h3] at h; simp only [Option.orElse] at h
        cases h4 : searchLitRun (lc "ECDSA ") isB64Char 50 l with
        | some r4 => rw [h4] at h; simp at h; subst h; exact searchLitRun_min _ _ _ _ _ h4
        | none =>
          rw [h4] at h; simp only [Option.orElse] at h
          exact searchLitRun_min _ _ _ _ _ h

theorem long_ne_unknown (r : List Char) (h : 50 ≤ r.length) : r ≠ unknownS := by
  intro hr
  rw [hr] at h
  exact absurd h (by decide)

/-! Loader decomposition. -/

theorem load_lines_cons_some (c : KeyDict) (n : Nat) (x : List Char)
    (rest : List (List Char)) (e : KeyEntry) (hk : keepLine x = true)
    (hp : parse_authorized_key_line (stripWS x) = some e) :
    load_lines c n (x :: rest)
      = load_lines (dictInsert e.fingerprint { e with line_number := some n } c) (n + 1) rest := by
  rw [load_lines, if_pos hk, hp]

theorem load_lines_cons_noparse (c : KeyDict) (n : Nat) (x : List Char)
    (rest : List (List Char)) (hk : keepLine x = true)
    (hp : parse_authorized_key_line (stripWS x) = none) :
    load_lines c n (x :: rest) = load_lines c (n + 1) rest := by
  rw [load_lines, if_pos hk, hp]

theorem load_lines_cons_skip (c : KeyDict) (n : Nat) (x : List Char)
    (rest : List (List Char)) (hk : keepLine x = false) :
    load_lines c n (x :: rest) = load_lines c (n + 1) rest := by
  rw [load_lines, if_neg (by simp [hk])]

theorem load_lines_append (c : KeyDict) (n : Nat) (xs ys : List (List Char)) :
    load_lines c n (xs ++ ys) = load_lines (load_lines c n xs) (n + xs.length) ys := by
  induction xs generalizing c n with
  | nil => simp [load_lines]
  | cons x xs ih =>
    have harith : n + 1 + xs.length = n + (xs.length + 1) := by omega
    rw [List.cons_append]
    by_cases hk : keepLine x = true
    · cases hp : parse_authorized_key_line (stripWS x) with
      | some e =>
        rw [load_lines_cons_some c n x (xs ++ ys) e hk hp,
          load_lines_cons_some c n x xs e hk hp, ih, List.length_cons, harith]
      | none =>
        rw [load_lines_cons_noparse c n x (xs ++ ys) hk hp,
          load_lines_cons_noparse c n x xs hk hp, ih, List.length_cons, harith]
    · rw [load_lines_cons_skip c n x (xs ++ ys) (Bool.eq_false_iff.mpr hk),
        load_lines_cons_skip c n x xs (Bool.eq_false_iff.mpr hk), ih,
        List.length_cons, harith]

/-! Inversion of the line parser. -/

theorem parse_line_of_len (s : List Char) (h : 2 ≤ (splitWS s).length) :
    parse_authorized_key_line s = some
      { type := (splitWS s).getD 0 []
        data := (splitWS s).getD 1 []
        fingerprint := generate_fingerprint ((splitWS s).getD 0 []) ((splitWS s).getD 1 [])
        comment := if 2 < (splitWS s).length then (splitWS s).getD 2 [] else []
        options :=
          if 3 < (splitWS s).length then mkOptions (((splitWS s).drop 2).dropLast) else []
        full_line := s
        line_number := none } := by
  unfold parse_authorized_key_line
  rw [if_neg (by omega)]

theorem parse_line_inv (s : List Char) (e : KeyEntry)
    (h : parse_authorized_key_line s = some e) :
    2 ≤ (splitWS s).length ∧
      e = { type := (splitWS s).getD 0 []
            data := (splitWS s).getD 1 []
            fingerprint := generate_fingerprint ((splitWS s).getD 0 []) ((splitWS s).getD 1 [])
            comment := if 2 < (splitWS s).length then (splitWS s).getD 2 [] else []
            options :=
              if 3 < (splitWS s).length then mkOptions (((splitWS s).drop 2).dropLast) else []
            full_line := s
            line_number := none } := by
  unfold parse_authorized_key_line at h
  by_cases hl : (splitWS s).length < 2
  · rw [if_pos hl] at h; cases h
  · rw [if_neg hl] at h
    exact ⟨by omega, (Option.some.inj h).symm⟩

/-! Window and scan helpers. -/

theorem recentWindow_subset (k : Nat) (ll : List (List Char)) :
    ∀ x ∈ recentWindow k ll, x ∈ ll := by
  intro x hx
  unfold recentWindow at hx
  split at hx
  · split at hx
    · exact hx
    · exact List.drop_subset _ _ hx
  · exact hx

theorem method2_scan_none (ip : List Char) (keys : Option (List (List Char))) :
    ∀ ls, (∀ x ∈ ls, looseMatch ip x = false) → method2_scan ip keys ls = none := by
  intro ls
  induction ls with
  | nil => intro _; rfl
  | cons y ys ih =>
    intro h
    have hy := h y (by simp)
    unfold method2_scan
    rw [if_neg (by simp [hy])]
    exact ih (fun x hx => h x (by simp [hx]))

theorem load_lines_no_bad_preserves_unknown (ys : List (List Char))
    (h : ∀ x ∈ ys, undecodableLine x = false) :
    ∀ (c : KeyDict) (n : Nat), dictGet unknownS (load_lines c n ys) = dictGet unknownS c := by
  induction ys with
  | nil => intro c n; rfl
  | cons y ys ih =>
    intro c n
    have hy := h y (by simp)
    have hrest : ∀ x ∈ ys, undecodableLine x = false := fun x hx => h x (by simp [hx])
    by_cases hk : keepLine y = true
    · cases hp : parse_authorized_key_line (stripWS y) with
      | none =>
        rw [load_lines_cons_noparse c n y ys hk hp]
        exact ih hrest _ _
      | some e =>
        rw [load_lines_cons_some c n y ys e hk hp]
        obtain ⟨hlen, he⟩ := parse_line_inv _ _ hp
        have hdec : b64decode ((splitWS (stripWS y)).getD 1 []) ≠ none := by
          intro hn
          have hbad : undecodableLine y = true := by
            unfold undecodableLine
            rw [hk, decide_eq_true hlen, decide_eq_true hn]
            rfl
          rw [hbad] at hy
          cases hy
        obtain ⟨bs, hbs⟩ := Option.ne_none_iff_exists'.mp hdec
        have hfp : e.fingerprint ≠ unknownS := by
          rw [he]
          exact generate_fingerprint_ne_unknown ((splitWS (stripWS y)).getD 0 [])
            ((splitWS (stripWS y)).getD 1 []) bs hbs
        rw [ih hrest _ _, dictGet_dictInsert_ne _ _ _ _ hfp]
    · rw [load_lines_cons_skip c n y ys (Bool.eq_false_iff.mpr hk)]
      exact ih hrest _ _

theorem load_authorized_keys_some (ls : List (List Char)) :
    load_authorized_keys (some ls) = load_lines [] 1 ls := rfl

theorem load_lines_nil (c : KeyDict) (n : Nat) : load_lines c n [] = c := rfl

theorem find_key_by_data_some (kd : List Char) (ls : List (List Char)) :
    find_key_by_data (some ls) kd = find_key_by_data_lines kd ls := rfl

theorem keepLine_parts (l : List Char) (h : keepLine l = true) :
    (stripWS l).isEmpty = false ∧ startsWithHash l = false := by
  unfold keepLine at h
  rw [Bool.and_eq_true] at h
  exact ⟨by simpa using h.1, keepLine_not_hash l (by unfold keepLine; rw [Bool.and_eq_true]; exact h)⟩

/-! The claims. -/

/-- C3: for every input that base64-decodes successfully, the generated
fingerprint is the MD5 digest of the decoded bytes rendered as lowercase
hex with a colon inserted after every two characters: exactly 16
two-character groups of hex digits joined by colons; and the result is
independent of the key-type argument. -/
theorem c3_fingerprint_format (kt kt' kd : List Char) (bs : List Nat)
    (h : b64decode kd = some bs) :
    generate_fingerprint kt kd = joinColon (pairsOf (hexdigest (md5Bytes bs)))
      ∧ (pairsOf (hexdigest (md5Bytes bs))).length = 16
      ∧ (∀ p ∈ pairsOf (hexdigest (md5Bytes bs)), p.length = 2 ∧ ∀ c ∈ p, c ∈ hexChars)
      ∧ generate_fingerprint kt kd = generate_fingerprint kt' kd := by
  have hlen : (hexdigest (md5Bytes bs)).length = 2 * 16 := by
    rw [hexdigest_length, md5Bytes_length]
  obtain ⟨h1, h2⟩ := pairsOf_spec 16 _ hlen
  refine ⟨generate_fingerprint_of_some kt kd bs h, h1, ?_, rfl⟩
  intro p hp
  obtain ⟨hp2, hmem⟩ := h2 p hp
  exact ⟨hp2, fun c hc => hexdigest_mem _ (md5Bytes_lt bs) c (hmem c hc)⟩

/-- Concrete instance of C3 on a short decodable key blob. -/
theorem c3_fingerprint_format_witness :
    b64decode (lc "QUJD") = some [65, 66, 67]
      ∧ (pairsOf (hexdigest (md5Bytes [65, 66, 67]))).length = 16
      ∧ generate_fingerprint (lc "ssh-rsa") (lc "QUJD")
          = generate_fingerprint (lc "ssh-ed25519") (lc "QUJD") :=
  ⟨by decide,
   (c3_fingerprint_format (lc "ssh-rsa") (lc "ssh-ed25519") (lc "QUJD") [65, 66, 67]
      (by decide)).2.1,
   (c3_fingerprint_format (lc "ssh-rsa") (lc "ssh-ed25519") (lc "QUJD") [65, 66, 67]
      (by decide)).2.2.2⟩

/-- C4: when base64 decoding of the key data fails, the fingerprint
generator returns the sentinel unknown; as a total function of its
input it propagates no error to the caller. -/
theorem c4_decode_failure_degrade (kt kd : List Char) (h : b64decode kd = none) :
    generate_fingerprint kt kd = unknownS :=
  generate_fingerprint_of_none kt kd h

/-- Concrete instance of C4 at the input named by the spec. -/
theorem c4_decode_failure_degrade_witness :
    b64decode (lc "not-base64!!") = none
      ∧ generate_fingerprint (lc "ssh-rsa") (lc "not-base64!!") = unknownS :=
  ⟨by decide, c4_decode_failure_degrade (lc "ssh-rsa") (lc "not-base64!!") (by decide)⟩

/-- C6: the auth method of a parsed log line is decided by substring
containment checks in the fixed priority order publickey, password,
keyboard-interactive, first match winning; a line containing none of
the three yields the sentinel unknown. -/
theorem c6_auth_method_priority (l : List Char) :
    (containsSub (lc "publickey") l = true →
        (parse_ssh_connection_line l).auth_method = lc "publickey")
      ∧ (containsSub (lc "publickey") l = false →
        containsSub (lc "password") l = true →
        (parse_ssh_connection_line l).auth_method = lc "password")
      ∧ (containsSub (lc "publickey") l = false →
        containsSub (lc "password") l = false →
        containsSub (lc "keyboard-interactive") l = true →
        (parse_ssh_connection_line l).auth_method = lc "keyboard-interactive")
      ∧ (containsSub (lc "publickey") l = false →
        containsSub (lc "password") l = false →
        containsSub (lc "keyboard-interactive") l = false →
        (parse_ssh_connection_line l).auth_method = unknownS) := by
  refine ⟨?_, ?_, ?_, ?_⟩
  · intro h1
    simp [parse_ssh_connection_line, h1]
  · intro h1 h2
    simp [parse_ssh_connection_line, h1, h2]
  · intro h1 h2 h3
    simp [parse_ssh_connection_line, h1, h2, h3]
  · intro h1 h2 h3
    simp [parse_ssh_connection_line, h1, h2, h3]

/-- Concrete instance of C6: a line holding both publickey and password
resolves to publickey, a line holding neither resolves to unknown. -/
theorem c6_auth_method_priority_witness :
    (parse_ssh_connection_line
        (lc "sshd: Accepted publickey for r, after password failure")).auth_method
      = lc "publickey"
      ∧ (parse_ssh_connection_line (lc "nothing relevant here")).auth_method = unknownS :=
  ⟨(c6_auth_method_priority _).1 (by decide),
   (c6_auth_method_priority _).2.2.2 (by decide) (by decide) (by decide)⟩

/-- C7: on a registry line of at least three whitespace tokens the
parser succeeds, records token 2 as the comment, and builds the options
exactly from the tokens at indexes 2 up to but excluding the last
(splitting each token holding an equals sign at its first occurrence);
with four or more tokens, the comment token itself lies inside that
scanned range. -/
theorem c7_option_comment_range (l : List Char) (h3 : 3 ≤ (splitWS l).length) :
    (parse_authorized_key_line l).map (fun e => (e.comment, e.options))
        = some ((splitWS l).getD 2 [], mkOptions (((splitWS l).drop 2).dropLast))
      ∧ (4 ≤ (splitWS l).length →
        (splitWS l).getD 2 [] ∈ ((splitWS l).drop 2).dropLast) := by
  constructor
  · rw [parse_line_of_len l (by omega)]
    simp only [Option.map_some']
    rw [if_pos (by omega : 2 < (splitWS l).length)]
    by_cases h4 : 3 < (splitWS l).length
    · rw [if_pos h4]
    · rw [if_neg h4]
      have hlen : (((splitWS l).drop 2).dropLast).length = 0 := by
        rw [List.length_dropLast, List.length_drop]
        omega
      rw [List.length_eq_zero.mp hlen]
      rfl
  · intro h4
    have hlen : ((splitWS l).drop 2).length = (splitWS l).length - 2 :=
      List.length_drop 2 (splitWS l)
    cases hd : (splitWS l).drop 2 with
    | nil => rw [hd] at hlen; simp at hlen; omega
    | cons a t =>
      cases t with
      | nil => rw [hd] at hlen; simp at hlen; omega
      | cons b t2 =>
        have ha : (splitWS l).getD 2 [] = a := by
          have h0 : ((splitWS l).drop 2)[0]? = (splitWS l)[2]? := by
            rw [List.getElem?_drop]
          rw [hd] at h0
          simp at h0
          rw [List.getD_eq_getElem?_getD, ← h0]
          rfl
        rw [ha]
        simp

/-- Concrete instance of C7 at the spec's option-parsing scenario line:
the third token is recorded both as the comment and as an option. -/
theorem c7_option_comment_range_witness :
    (parse_authorized_key_line (lc "ssh-rsa QUJ SSH_USER=alice comment-text")).map
        (fun e => (e.comment, e.options))
      = some (lc "SSH_USER=alice", [(lc "SSH_USER", lc "alice")]) := by
  rw [(c7_option_comment_range (lc "ssh-rsa QUJ SSH_USER=alice comment-text")
    (by decide)).1]
  decide

/-- C10: whenever SSH_KEY_FINGERPRINT is set and non-empty, the
environment fallback returns the fingerprint lookup directly (absent
when the registry has no such entry), for every cache and every value
of SSH_KEY_COMMENT, so the comment scan is never attempted. -/
theorem c10_env_fingerprint_suppresses_comment (cache : KeyDict) (env : SSHEnv)
    (s : List Char) (hfp : env.ssh_key_fingerprint = some s) (hs : s ≠ []) :
    find_key_from_ssh_environment cache env = find_key_by_fingerprint cache s := by
  have ht : truthy env.ssh_key_fingerprint = true := by
    rw [hfp]
    simp [truthy, hs]
  unfold find_key_from_ssh_environment
  rw [if_pos ht, hfp]
  rfl

/-- Concrete instance of C10: the fingerprint hint misses the registry
while the comment hint would have matched, yet the result is absent. -/
theorem c10_env_fingerprint_suppresses_comment_witness :
    find_key_from_ssh_environment
        [(lc "aa:bb",
          { type := lc "ssh-rsa"
            data := lc "QUJ"
            fingerprint := lc "aa:bb"
            comment := lc "laptop"
            options := []
            full_line := lc "ssh-rsa QUJ laptop"
            line_number := some 1 })]
        { ssh_key_fingerprint := some (lc "zz"), ssh_key_comment := some (lc "laptop") }
      = none := by
  rw [c10_env_fingerprint_suppresses_comment _ _ (lc "zz") rfl (by decide)]
  decide

/-- C5 as stated is false at maxLines = 0: the Python window slice
lines[-0:] is the whole file, so two logs that trivially agree on their
last zero lines can still produce different results. -/
theorem c5_log_window_bound_counterexample :
    lastLines 0 [lc "sshd: Accepted publickey for alice from 10.0.0.5"]
        = lastLines 0 ([] : List (List Char))
      ∧ find_recent_ssh_connection
            (some [lc "sshd: Accepted publickey for alice from 10.0.0.5"])
            (lc "10.0.0.5") (lc "alice") 0
        ≠ find_recent_ssh_connection (some []) (lc "10.0.0.5") (lc "alice") 0 := by
  constructor
  · decide
  · decide

/-- C5 (amended): for every positive maxLines bound, the scan result
depends only on the last maxLines lines of the log, so two logs that
agree on that suffix give the same result. -/
theorem c5_log_window_bound (l1 l2 : List (List Char)) (ip user : List Char)
    (k : Nat) (hk : 1 ≤ k) (h : lastLines k l1 = lastLines k l2) :
    find_recent_ssh_connection (some l1) ip user k
      = find_recent_ssh_connection (some l2) ip user k := by
  have hw : ∀ l : List (List Char), recentWindow k l = lastLines k l := by
    intro l
    unfold recentWindow lastLines
    by_cases hlen : k < l.length
    · rw [if_pos hlen, if_neg (by omega)]
    · rw [if_neg hlen]
      have h0 : l.length - k = 0 := by omega
      rw [h0, List.drop_zero]
  simp only [find_recent_ssh_connection]
  rw [hw l1, hw l2, h]

/-- Concrete instance of the amended C5: dropping a line outside the
one-line window does not change the result. -/
theorem c5_log_window_bound_witness :
    lastLines 1 [lc "noise", lc "x sshd Accepted 9.9.9.9"]
        = lastLines 1 [lc "x sshd Accepted 9.9.9.9"]
      ∧ find_recent_ssh_connection (some [lc "noise", lc "x sshd Accepted 9.9.9.9"])
            (lc "9.9.9.9") (lc "bob") 1
        = find_recent_ssh_connection (some [lc "x sshd Accepted 9.9.9.9"])
            (lc "9.9.9.9") (lc "bob") 1 :=
  ⟨by decide,
   c5_log_window_bound [lc "noise", lc "x sshd Accepted 9.9.9.9"]
     [lc "x sshd Accepted 9.9.9.9"] (lc "9.9.9.9") (lc "bob") 1 (by decide) (by decide)⟩

/-- C2: for a registry file of two parseable non-comment lines sharing
their key-data token, the fingerprints coincide, the fingerprint index
lookup returns the entry of the later line (last-wins), while the
key-data file scan returns the entry of the earlier line. -/
theorem c2_registry_precedence (l1 l2 : List Char) (e1 e2 : KeyEntry)
    (hk1 : keepLine l1 = true) (hk2 : keepLine l2 = true)
    (h1 : parse_authorized_key_line (stripWS l1) = some e1)
    (h2 : parse_authorized_key_line (stripWS l2) = some e2)
    (hd : e1.data = e2.data) :
    e1.fingerprint = e2.fingerprint
      ∧ find_key_by_fingerprint (load_authorized_keys (some [l1, l2])) e1.fingerprint
          = some { e2 with line_number := some 2 }
      ∧ find_key_by_data (some [l1, l2]) e1.data = some e1 := by
  obtain ⟨hlen1, he1⟩ := parse_line_inv _ _ h1
  obtain ⟨hlen2, he2⟩ := parse_line_inv _ _ h2
  have hf1 : e1.fingerprint = generate_fingerprint [] e1.data := by rw [he1]; rfl
  have hf2 : e2.fingerprint = generate_fingerprint [] e2.data := by rw [he2]; rfl
  have ffeq : e1.fingerprint = e2.fingerprint := by rw [hf1, hf2, hd]
  refine ⟨ffeq, ?_, ?_⟩
  · rw [load_authorized_keys_some,
      load_lines_cons_some _ 1 l1 [l2] e1 hk1 h1,
      load_lines_cons_some _ 2 l2 [] e2 hk2 h2,
      load_lines_nil]
    unfold find_key_by_fingerprint
    rw [ffeq]
    exact dictGet_dictInsert_self _ _ _
  · obtain ⟨hne1, hnh1⟩ := keepLine_parts l1 hk1
    rw [find_key_by_data_some]
    unfold find_key_by_data_lines
    rw [if_pos ⟨by simp [hne1], by simp [hnh1]⟩,
      if_pos ⟨hlen1, by rw [he1]⟩]
    exact h1

/-- Concrete instance of C2 on a two-line registry with repeated key
data (undecodable, so both lines share the sentinel fingerprint). -/
theorem c2_registry_precedence_witness :
    find_key_by_fingerprint
        (load_authorized_keys (some [lc "ssh-rsa QUJ userA", lc "ssh-ed25519 QUJ userB"]))
        unknownS
      = some
        { type := lc "ssh-ed25519", data := lc "QUJ", fingerprint := unknownS
          comment := lc "userB", options := [], full_line := lc "ssh-ed25519 QUJ userB"
          line_number := some 2 }
      ∧ find_key_by_data (some [lc "ssh-rsa QUJ userA", lc "ssh-ed25519 QUJ userB"]) (lc "QUJ")
        = some
          { type := lc "ssh-rsa", data := lc "QUJ", fingerprint := unknownS
            comment := lc "userA", options := [], full_line := lc "ssh-rsa QUJ userA"
            line_number := none } :=
  ⟨(c2_registry_precedence (lc "ssh-rsa QUJ userA") (lc "ssh-ed25519 QUJ userB")
      { type := lc "ssh-rsa", data := lc "QUJ", fingerprint := unknownS
        comment := lc "userA", options := [], full_line := lc "ssh-rsa QUJ userA"
        line_number := none }
      { type := lc "ssh-ed25519", data := lc "QUJ", fingerprint := unknownS
        comment := lc "userB", options := [], full_line := lc "ssh-ed25519 QUJ userB"
        line_number := none }
      (by decide) (by decide) (by decide) (by decide) (by decide)).2.1,
   (c2_registry_precedence (lc "ssh-rsa QUJ userA") (lc "ssh-ed25519 QUJ userB")
      { type := lc "ssh-rsa", data := lc "QUJ", fingerprint := unknownS
        comment := lc "userA", options := [], full_line := lc "ssh-rsa QUJ userA"
        line_number := none }
      { type := lc "ssh-ed25519", data := lc "QUJ", fingerprint := unknownS
        comment := lc "userB", options := [], full_line := lc "ssh-ed25519 QUJ userB"
        line_number := none }
      (by decide) (by decide) (by decide) (by decide) (by decide)).2.2⟩

/-- C9: when the last loader-visible line with at least two tokens and
undecodable key data sits before a suffix of lines that are not of that
kind, the loaded index maps the sentinel unknown to exactly that line's
entry, so a fingerprint lookup of the string unknown returns a real
entry rather than an absent result. -/
theorem c9_unknown_is_live_index_key (pre suf : List (List Char)) (l : List Char)
    (e : KeyEntry)
    (hbad : undecodableLine l = true)
    (hsuf : ∀ x ∈ suf, undecodableLine x = false)
    (hp : parse_authorized_key_line (stripWS l) = some e) :
    find_key_by_fingerprint (load_authorized_keys (some (pre ++ l :: suf))) unknownS
      = some { e with line_number := some (pre.length + 1) } := by
  have hparts : keepLine l = true
      ∧ 2 ≤ (splitWS (stripWS l)).length
      ∧ b64decode ((splitWS (stripWS l)).getD 1 []) = none := by
    unfold undecodableLine at hbad
    rw [Bool.and_eq_true, Bool.and_eq_true] at hbad
    exact ⟨hbad.1.1, of_decide_eq_true hbad.1.2, of_decide_eq_true hbad.2⟩
  obtain ⟨hkl, hlen, hdec⟩ := hparts
  obtain ⟨_, he⟩ := parse_line_inv _ _ hp
  have hfpe : e.fingerprint = unknownS := by
    rw [he]
    exact generate_fingerprint_of_none ((splitWS (stripWS l)).getD 0 [])
      ((splitWS (stripWS l)).getD 1 []) hdec
  rw [load_authorized_keys_some]
  unfold find_key_by_fingerprint
  rw [load_lines_append [] 1 pre (l :: suf),
    load_lines_cons_some _ _ l suf e hkl hp,
    load_lines_no_bad_preserves_unknown suf hsuf _ _, hfpe]
  rw [show (1 : Nat) + pre.length = pre.length + 1 from by omega]
  exact dictGet_dictInsert_self _ _ _

/-- Concrete instance of C9: one undecodable line among a comment, a
blank line and a decodable line owns the index slot unknown. -/
theorem c9_unknown_is_live_index_key_witness :
    find_key_by_fingerprint
        (load_authorized_keys
          (some [lc "# header", lc "ssh-rsa QUJ alice", lc "", lc "ssh-rsa QUJD bob"]))
        unknownS
      = some
        { type := lc "ssh-rsa", data := lc "QUJ", fingerprint := unknownS
          comment := lc "alice", options := [], full_line := lc "ssh-rsa QUJ alice"
          line_number := some 2 } :=
  c9_unknown_is_live_index_key [lc "# header"] [lc "", lc "ssh-rsa QUJD bob"]
    (lc "ssh-rsa QUJ alice")
    { type := lc "ssh-rsa", data := lc "QUJ", fingerprint := unknownS
      comment := lc "alice", options := [], full_line := lc "ssh-rsa QUJ alice"
      line_number := none }
    (by decide) (by decide) (by decide)

/-- C8: with a missing or empty registry, a missing or entirely
non-matching auth log, and neither SSH_KEY_FINGERPRINT nor
SSH_KEY_COMMENT truthy, the correlator returns an explicit absent
result for every ip and username; being a total function it raises no
fault. -/
theorem c8_no_evidence_totality (ip user : List Char)
    (keys logf : Option (List (List Char))) (env : SSHEnv)
    (hkeys : keys = none ∨ keys = some [])
    (hlog : logf = none ∨ ∃ ll, logf = some ll ∧ ∀ x ∈ ll,
        is_ssh_connection_line x ip user = false ∧ looseMatch ip x = false)
    (henv : truthy env.ssh_key_fingerprint = false ∧ truthy env.ssh_key_comment = false) :
    find_key_by_ip_and_user ⟨keys, logf, env⟩ ip user = none := by
  have henvstep : ∀ cache : KeyDict, find_key_from_ssh_environment cache env = none := by
    intro cache
    unfold find_key_from_ssh_environment
    rw [if_neg (by simp [henv.1]), if_neg (by simp [henv.2])]
  rcases hlog with rfl | ⟨ll, rfl, hall⟩
  · simp only [find_key_by_ip_and_user, find_recent_ssh_connection]
    exact henvstep _
  · have hci : find_recent_ssh_connection (some ll) ip user 1000 = none := by
      simp only [find_recent_ssh_connection]
      have hf1 : (recentWindow 1000 ll).reverse.find?
          (fun x => is_ssh_connection_line x ip user) = none := by
        rw [List.find?_eq_none]
        intro x hx
        rw [List.mem_reverse] at hx
        simp [(hall x (recentWindow_subset 1000 ll x hx)).1]
      have hf2 : (recentWindow 1000 ll).reverse.find? (fun x => looseMatch ip x) = none := by
        rw [List.find?_eq_none]
        intro x hx
        rw [List.mem_reverse] at hx
        simp [(hall x (recentWindow_subset 1000 ll x hx)).2]
      rw [hf1, hf2]
    have hm2 : method2_scan ip keys (recentWindow 100 ll).reverse = none := by
      apply method2_scan_none
      intro x hx
      rw [List.mem_reverse] at hx
      exact (hall x (recentWindow_subset 100 ll x hx)).2
    simp only [find_key_by_ip_and_user, hci, hm2]
    exact henvstep _

/-- Concrete instance of C8: missing registry, one irrelevant log line,
no environment hints. -/
theorem c8_no_evidence_totality_witness :
    find_key_by_ip_and_user
        ⟨none, some [lc "an unrelated log line"], ⟨none, none⟩⟩
        (lc "1.2.3.4") (lc "bob")
      = none :=
  c8_no_evidence_totality (lc "1.2.3.4") (lc "bob") none
    (some [lc "an unrelated log line"]) ⟨none, none⟩
    (Or.inl rfl)
    (Or.inr ⟨[lc "an unrelated log line"], rfl, by decide⟩)
    ⟨rfl, rfl⟩

/-- C1: with a one-entry registry whose key-data token is the long
base64 run kd and a one-line log matching the accepted-publickey
pattern, carrying no parsable fingerprint token but carrying kd as key
data, the correlator returns the registry entry: the evidence
fingerprint is the sentinel unknown so the fingerprint step yields
nothing, and the key-data step resolves the entry. -/
theorem c1_fallback_ordering (kline logline ip user kd : List Char) (e : KeyEntry)
    (env : SSHEnv)
    (hconn : containsSub (connPattern (lc "publickey") user ip) logline = true)
    (hfp : extract_fingerprint logline = none)
    (hkd : extract_key_data logline = some kd)
    (hkeep : keepLine kline = true)
    (hparse : parse_authorized_key_line (stripWS kline) = some e)
    (hdata : (splitWS (stripWS kline)).getD 1 [] = kd) :
    (parse_ssh_connection_line logline).fingerprint = unknownS
      ∧ (parse_ssh_connection_line logline).key_data = kd
      ∧ find_recent_ssh_connection (some [logline]) ip user 1000
          = some (parse_ssh_connection_line logline)
      ∧ find_key_by_data (some [kline]) kd = some e
      ∧ find_key_by_ip_and_user ⟨some [kline], some [logline], env⟩ ip user = some e := by
  have hrec1 : (parse_ssh_connection_line logline).fingerprint = unknownS := by
    simp [parse_ssh_connection_line, hfp]
  have hrec2 : (parse_ssh_connection_line logline).key_data = kd := by
    simp [parse_ssh_connection_line, hkd]
  have hisconn : is_ssh_connection_line logline ip user = true := by
    simp [is_ssh_connection_line, hconn]
  have hfind : find_recent_ssh_connection (some [logline]) ip user 1000
      = some (parse_ssh_connection_line logline) := by
    simp only [find_recent_ssh_connection]
    have hw : recentWindow 1000 [logline] = [logline] := by
      unfold recentWindow
      rw [if_neg (by simp)]
    rw [hw]
    simp only [List.reverse_cons, List.reverse_nil, List.nil_append]
    have hfl : List.find? (fun l => is_ssh_connection_line l ip user) [logline]
        = some logline := by
      simp [List.find?, hisconn]
    rw [hfl]
  have hkdne : kd ≠ unknownS := long_ne_unknown kd (extract_key_data_min logline kd hkd)
  have hfkd : find_key_by_data (some [kline]) kd = some e := by
    obtain ⟨hne, hnh⟩ := keepLine_parts kline hkeep
    obtain ⟨hlen, _⟩ := parse_line_inv _ _ hparse
    rw [find_key_by_data_some]
    unfold find_key_by_data_lines
    rw [if_pos ⟨by simp [hne], by simp [hnh]⟩, if_pos ⟨hlen, hdata⟩]
    exact hparse
  refine ⟨hrec1, hrec2, hfind, hfkd, ?_⟩
  simp only [find_key_by_ip_and_user, hfind, hrec1, hrec2]
  simp [hkdne, hfkd]

/-- Concrete instance of C1 at the spec's end-to-end scenario: a
53-character base64 run as key data, logged for alice at 10.0.0.5. -/
theorem c1_fallback_ordering_witness :
    find_key_by_ip_and_user
        ⟨some [lc "ssh-rsa " ++ List.replicate 53 'A' ++ lc " alice@example"],
         some [lc "sshd: Accepted publickey for alice from 10.0.0.5 ssh2: key "
            ++ List.replicate 53 'A'],
         ⟨none, none⟩⟩
        (lc "10.0.0.5") (lc "alice")
      = some
        { type := lc "ssh-rsa", data := List.replicate 53 'A', fingerprint := unknownS
          comment := lc "alice@example", options := []
          full_line := lc "ssh-rsa " ++ List.replicate 53 'A' ++ lc " alice@example"
          line_number := none } :=
  (c1_fallback_ordering
    (lc "ssh-rsa " ++ List.replicate 53 'A' ++ lc " alice@example")
    (lc "sshd: Accepted publickey for alice from 10.0.0.5 ssh2: key "
      ++ List.replicate 53 'A')
    (lc "10.0.0.5") (lc "alice") (List.replicate 53 'A')
    { type := lc "ssh-rsa", data := List.replicate 53 'A', fingerprint := unknownS
      comment := lc "alice@example", options := []
      full_line := lc "ssh-rsa " ++ List.replicate 53 'A' ++ lc " alice@example"
      line_number := none }
    ⟨none, none⟩
    (by decide) (by decide) (by decide) (by decide) (by decide) (by decide)).2.2.2.2

end KeyParser
